import Mathlib

/-!
Shallow embedding of `uodm.py`, a micro object-document mapper.

The embedding models the Python module faithfully:
  * `Value` is the dynamic value universe (Python scalars, UUID tokens and
    live object references into an explicit heap).
  * `Obj` is a `Document` instance: its class id, its `_name_` identity, the
    `contents` dict of raw field values and the plain instance attributes
    created by the `super().__setattr__` fallback.
  * `OdmState` is the mutable world of one `ODM` context: the heap of live
    instances, the identity-map cache, the Mongo database and the UUID /
    address allocators (`uuid.uuid1()` is modelled as a fresh counter).
  * Operations return `Except (Err × OdmState) (α × OdmState)`: a Python
    exception carries the state as it was at the moment of the raise.
  * The store collaborator may fail any insert/update call; the `failing`
    flag models that nondeterminism (a network error raising from pymongo).
Dictionaries are association lists with first-occurrence lookup; `setKey`
replaces in place as a Python dict assignment does.
-/

set_option autoImplicit false

namespace Uodm

/-- Dynamic values: Python scalars, `uuid` tokens and live object
references (heap addresses). A reference field stores a `vId`; supplying a
live `Document` to a constructor or setter passes a `vObj`. -/
inductive Value where
  | vNone
  | vStr (s : String)
  | vInt (n : Int)
  | vBool (b : Bool)
  | vId (i : Nat)
  | vObj (r : Nat)
  deriving DecidableEq

/-- Python truthiness of the modelled values (`_name_ or self.generate_uuid()`). -/
def Value.truthy : Value → Bool
  | .vNone => false
  | .vStr s => !(s == "")
  | .vInt n => !(n == 0)
  | .vBool b => b
  | .vId _ => true
  | .vObj _ => true

section Assoc

variable {κ α : Type} [DecidableEq κ]

/-- First-occurrence lookup in an association list (a Python dict read). -/
def getKey : List (κ × α) → κ → Option α
  | [], _ => none
  | (k', v) :: t, k => if k' = k then some v else getKey t k

/-- Dict assignment: replace the first occurrence in place, else append. -/
def setKey : List (κ × α) → κ → α → List (κ × α)
  | [], k, v => [(k, v)]
  | (k', v') :: t, k, v => if k' = k then (k, v) :: t else (k', v') :: setKey t k v

/-- Dict `pop(k, None)`: drop the first occurrence of the key. -/
def popKey : List (κ × α) → κ → List (κ × α)
  | [], _ => []
  | (k', v') :: t, k => if k' = k then t else (k', v') :: popKey t k

end Assoc

/-- Errors raised by the module, one constructor per `raise` site (plus the
runtime errors Python itself produces on the buggy paths). -/
inductive Err where
  | valueErrorMissing (field : String)
  | valueErrorTooMany
  | attributeError (name : String)
  | readOnlyError (name : String)
  | notDefinedError (name : String)
  | noNameAttr
  | nameError
  | keyError
  | invalidRef
  | storeError
  | documentErrorNotFound
  | documentErrorDuplicate
  deriving DecidableEq

/-- One `Attr` descriptor: `mutable`/`reference` flags, the referenced class
id (meaningful only when `reference`), and the default (meaningful only when
`hasDefault`; `Attr.__init__` makes `has_default` imply `not reference`). -/
structure Attr where
  mutable : Bool
  reference : Bool
  refClass : Nat
  hasDefault : Bool
  default : Value
  deriving DecidableEq

/-- One concrete `Document` subclass: `DB_COLLECTION` and the ordered
`ATTRIBUTES` mapping. -/
structure DocClass where
  dbCollection : String
  attributes : List (String × Attr)
  deriving DecidableEq

/-- The class environment: class ids to class declarations. -/
abbrev Env := Nat → DocClass

/-- A live `Document` instance: its Python type, its `_name_` identity, the
`contents` dict of raw values, and the plain instance attributes written by
the `super().__setattr__` fallback. -/
structure Obj where
  cls : Nat
  name : Value
  contents : List (String × Value)
  pyAttrs : List (String × Value)
  deriving DecidableEq

/-- A raw stored document: field name to raw value, `"_name_"` included. -/
abbrev RawDoc := List (String × Value)

/-- The Mongo database: collection name to stored documents, plus a flag
modelling the collaborator failing the next insert/update call. -/
structure Store where
  collections : List (String × List RawDoc)
  failing : Bool
  deriving DecidableEq

/-- Documents of one collection (a missing collection reads as empty). -/
def Store.coll (s : Store) (c : String) : List RawDoc :=
  (getKey s.collections c).getD []

/-- Mongo `$set` on one document. -/
def setFields (d : RawDoc) (fields : RawDoc) : RawDoc :=
  fields.foldl (fun acc kv => setKey acc kv.1 kv.2) d

/-- Mongo `update` (no `multi`): `$set` on the first document matching the
`_name_` filter; no match is a silent no-op. -/
def updateFirst (nm : Value) (fields : RawDoc) : List RawDoc → List RawDoc
  | [] => []
  | d :: ds =>
    if getKey d "_name_" = some nm then setFields d fields :: ds
    else d :: updateFirst nm fields ds

/-- Collaborator `insert`: may fail, else appends the document. -/
def Store.insertDoc (s : Store) (c : String) (d : RawDoc) : Except Err Store :=
  if s.failing then .error .storeError
  else .ok { s with collections := setKey s.collections c (s.coll c ++ [d]) }

/-- Collaborator `update({"_name_": nm}, {"$set": fields})`: may fail, else
updates the first matching document. -/
def Store.update (s : Store) (c : String) (nm : Value) (fields : RawDoc) :
    Except Err Store :=
  if s.failing then .error .storeError
  else .ok { s with collections := setKey s.collections c (updateFirst nm fields (s.coll c)) }

/-- Mongo `find(criteria)` match: every criteria pair present and equal. -/
def docMatches (crit : RawDoc) (d : RawDoc) : Bool :=
  crit.all (fun kv => getKey d kv.1 == some kv.2)

/-- Documents of a collection matching the criteria, in store order. -/
def Store.findCrit (s : Store) (c : String) (crit : RawDoc) : List RawDoc :=
  (s.coll c).filter (docMatches crit)

/-- The world of one `ODM` context. -/
structure OdmState where
  heap : List (Nat × Obj)
  cache : List (Value × Nat)
  store : Store
  nextUuid : Nat
  nextAddr : Nat
  deriving DecidableEq

/-- Result of an operation: Python exceptions carry the state at the raise. -/
abbrev ORes (α : Type) := Except (Err × OdmState) (α × OdmState)

/-- Translation to the raw stored value (`__init__` line 114, `__setattr__`
line 155, `set_multiple` line 181): a reference attribute reads `value._name_`
— only a live instance has one, anything else raises `AttributeError`. -/
def rawOf (heap : List (Nat × Obj)) (att : Attr) (value : Value) : Except Err Value :=
  if att.reference then
    match value with
    | .vObj r =>
      match getKey heap r with
      | some o => .ok o.name
      | none => .error .noNameAttr
    | _ => .error .noNameAttr
  else .ok value

/-- The field loop of `Document.__init__` (lines 106-116): take the caller value or the default, translate references, pop consumed keys, build the
`contents` dict in schema order. -/
def procFields (heap : List (Nat × Obj)) :
    List (String × Attr) → List (String × Value) → List (String × Value) →
    Except Err (List (String × Value) × List (String × Value))
  | [], kw, contents => .ok (contents, kw)
  | (k, att) :: rest, kw, contents =>
    match getKey kw k with
    | some value =>
      match rawOf heap att value with
      | .error e => .error e
      | .ok raw => procFields heap rest (popKey kw k) (setKey contents k raw)
    | none =>
      if att.hasDefault then
        match rawOf heap att att.default with
        | .error e => .error e
        | .ok raw => procFields heap rest kw (setKey contents k raw)
      else .error (.valueErrorMissing k)

/-- Model of `Document.__init__`: the `_name_` keyword binds the named parameter, the
field loop runs, `_id` is silently popped, any leftover key raises, and the
identity is the caller value when truthy, else a fresh UUID. The
constructor never touches the store. -/
def initDoc (env : Env) (heap : List (Nat × Obj)) (cls : Nat)
    (kwargs : List (String × Value)) (fresh : Nat) : Except Err Obj :=
  let nameV := getKey kwargs "_name_"
  let kw0 := popKey kwargs "_name_"
  match procFields heap (env cls).attributes kw0 [] with
  | .error e => .error e
  | .ok (contents, rem) =>
    let rem2 := popKey rem "_id"
    if rem2.isEmpty then
      let nm : Value :=
        match nameV with
        | some v => if v.truthy then v else .vId fresh
        | none => .vId fresh
      .ok { cls := cls, name := nm, contents := contents, pyAttrs := [] }
    else .error .valueErrorTooMany

namespace ODM

/-- Model of `ODM._new`: construct the instance, allocate it on the heap and register
it in the cache under its identity — with no cache check: an existing entry
for the same identity is overwritten. -/
def newCached (env : Env) (st : OdmState) (cls : Nat)
    (kwargs : List (String × Value)) : ORes Nat :=
  match initDoc env st.heap cls kwargs st.nextUuid with
  | .error e => .error (e, st)
  | .ok o =>
    let addr := st.nextAddr
    .ok (addr,
      { st with
        heap := setKey st.heap addr o
        cache := setKey st.cache o.name addr
        nextUuid := st.nextUuid + 1
        nextAddr := st.nextAddr + 1 })

/-- Model of `ODM.find_one`: a cache hit returns the cached instance unchanged. On a
cache miss the source (line 235) reads the unbound name `db_conn` instead of
`self.db_conn`, so Python raises `NameError` before the store is consulted;
the `DocumentError` branches below it are unreachable. -/
def find_one (env : Env) (st : OdmState) (cls : Nat) (nm : Value) : ORes Nat :=
  match getKey st.cache nm with
  | some addr => .ok (addr, st)
  | none => .error (.nameError, st)

end ODM

/-- Model of `Document.write`: insert `{"_name_": name} ∪ contents` into the class
collection. -/
def Document.write (env : Env) (st : OdmState) (addr : Nat) : ORes Unit :=
  match getKey st.heap addr with
  | none => .error (.invalidRef, st)
  | some o =>
    match st.store.insertDoc (env o.cls).dbCollection (("_name_", o.name) :: o.contents) with
    | .error e => .error (e, st)
    | .ok store1 => .ok ((), { st with store := store1 })

namespace ODM

/-- Model of `ODM.new`: construct and cache, then insert. A failed insert leaves the
phantom instance cached (the state carried by the error). -/
def new (env : Env) (st : OdmState) (cls : Nat)
    (kwargs : List (String × Value)) : ORes Nat :=
  match newCached env st cls kwargs with
  | .error e => .error e
  | .ok (addr, st1) =>
    match Document.write env st1 addr with
    | .error e => .error e
    | .ok (_, st2) => .ok (addr, st2)

/-- The generator body of `ODM.find_all` over the cursor documents: the
`except KeyError` catches both a missing cache entry and a missing `_name_`
key in the raw document, so either falls through to materialization. The
lazy generator is modelled as the eager list of yielded instances. -/
def findAllGo (env : Env) (cls : Nat) : OdmState → List RawDoc → ORes (List Nat)
  | st, [] => .ok ([], st)
  | st, d :: ds =>
    match (getKey d "_name_").bind (fun nm => getKey st.cache nm) with
    | some addr =>
      match findAllGo env cls st ds with
      | .error e => .error e
      | .ok (rest, st1) => .ok (addr :: rest, st1)
    | none =>
      match newCached env st cls d with
      | .error e => .error e
      | .ok (addr, st1) =>
        match findAllGo env cls st1 ds with
        | .error e => .error e
        | .ok (rest, st2) => .ok (addr :: rest, st2)

/-- Model of `ODM.find_all`: run the cursor of matching documents through the
generator body. -/
def find_all (env : Env) (st : OdmState) (cls : Nat) (crit : RawDoc) : ORes (List Nat) :=
  findAllGo env cls st (st.store.findCrit (env cls).dbCollection crit)

end ODM

/-- Attribute read. Normal Python lookup finds plain instance attributes
first; `__getattr__` (lines 137-146) then serves schema fields, resolving a
reference through `ODM.find_one` on the owning context. -/
def Document.getattr (env : Env) (st : OdmState) (addr : Nat) (name : String) : ORes Value :=
  match getKey st.heap addr with
  | none => .error (.invalidRef, st)
  | some o =>
    match getKey o.pyAttrs name with
    | some v => .ok (v, st)
    | none =>
      match getKey (env o.cls).attributes name with
      | none => .error (.attributeError name, st)
      | some att =>
        match getKey o.contents name with
        | none => .error (.keyError, st)
        | some raw =>
          if att.reference then
            match ODM.find_one env st att.refClass raw with
            | .error e => .error e
            | .ok (r, st1) => .ok (.vObj r, st1)
          else .ok (raw, st)

/-- Attribute write (`__setattr__`, lines 148-164). A schema field checks
mutability, translates the raw value, commits the single-field store update
keyed by `_name_` and only then assigns `contents[name]`; any other name
falls through to the plain `super().__setattr__`, touching neither the
store nor `contents`. -/
def Document.setattr (env : Env) (st : OdmState) (addr : Nat) (name : String)
    (value : Value) : ORes Unit :=
  match getKey st.heap addr with
  | none => .error (.invalidRef, st)
  | some o =>
    match getKey (env o.cls).attributes name with
    | some att =>
      if att.mutable then
        match rawOf st.heap att value with
        | .error e => .error (e, st)
        | .ok raw =>
          match st.store.update (env o.cls).dbCollection o.name [(name, raw)] with
          | .error e => .error (e, st)
          | .ok store1 =>
            .ok ((),
              { st with
                store := store1
                heap := setKey st.heap addr { o with contents := setKey o.contents name raw } })
      else .error (.readOnlyError name, st)
    | none =>
      .ok ((), { st with heap := setKey st.heap addr { o with pyAttrs := setKey o.pyAttrs name value } })

/-- The validation loop of `set_multiple` (lines 170-183), building the
`raw_update` dict. -/
def validateBatch (heap : List (Nat × Obj)) (attrs : List (String × Attr)) :
    List (String × Value) → List (String × Value) → Except Err (List (String × Value))
  | [], acc => .ok acc
  | (k, v) :: rest, acc =>
    match getKey attrs k with
    | none => .error (.notDefinedError k)
    | some att =>
      if att.mutable then
        match rawOf heap att v with
        | .error e => .error e
        | .ok raw => validateBatch heap attrs rest (setKey acc k raw)
      else .error (.readOnlyError k)

/-- Model of `Document.set_multiple`: validate every pair, then one multi-field store
update. The source never writes `raw_update` back into `self.contents`. -/
def Document.set_multiple (env : Env) (st : OdmState) (addr : Nat)
    (d : List (String × Value)) : ORes Unit :=
  match getKey st.heap addr with
  | none => .error (.invalidRef, st)
  | some o =>
    match validateBatch st.heap (env o.cls).attributes d [] with
    | .error e => .error (e, st)
    | .ok rawUpdate =>
      match st.store.update (env o.cls).dbCollection o.name rawUpdate with
      | .error e => .error (e, st)
      | .ok store1 => .ok ((), { st with store := store1 })

/-- Names the embedding reserves for the machinery of the instance itself: a
schema declaring one of these would make the `self.contents = {}` or
`self._name_ = ...` lines of `__init__` recurse through the schema path of
`__setattr__`. -/
def reservedName (k : String) : Bool :=
  k == "contents" || k == "_name_" || k == "_odm" || k == "_id"

/-- Well-formed class declaration: distinct field names, none of the
reserved machinery names, and (as `Attr.__init__` enforces) no reference
carries a default. -/
structure WFClass (c : DocClass) : Prop where
  nodup : (c.attributes.map Prod.fst).Nodup
  noReserved : ∀ k ∈ c.attributes.map Prod.fst, reservedName k = false
  refNoDefault : ∀ ka ∈ c.attributes, ka.2.reference = true → ka.2.hasDefault = false

/-- First schema field, in declaration order, that the caller omitted and
whose descriptor has no default — the field `__init__` names when it raises. -/
def firstMissing : List (String × Attr) → List (String × Value) → Option String
  | [], _ => none
  | (k, att) :: rest, kw =>
    if (getKey kw k).isNone && !att.hasDefault then some k
    else firstMissing rest kw

/-- Caller-supplied values for reference fields are live instances: the
shape `__init__` needs so that every `value._name_` read succeeds. -/
def refsLive (heap : List (Nat × Obj)) (attrs : List (String × Attr))
    (kwargs : List (String × Value)) : Bool :=
  attrs.all fun ka =>
    !ka.2.reference ||
    (match getKey kwargs ka.1 with
     | none => true
     | some (.vObj r) => (getKey heap r).isSome
     | some _ => false)

/-- Shorthand for a plain `Attr(flags)` with neither reference nor default;
`refClass`/`default` are inert placeholders for the unset slots. -/
def plainAttr (m : Bool) : Attr :=
  { mutable := m, reference := false, refClass := 0, hasDefault := false, default := .vNone }

/-- Shorthand for `Attr(flags, default)`. -/
def defAttr (m : Bool) (d : Value) : Attr :=
  { mutable := m, reference := false, refClass := 0, hasDefault := true, default := d }

/-- Shorthand for an `Attr` with the reference flag and a referenced class. -/
def refAttr (m : Bool) (c : Nat) : Attr :=
  { mutable := m, reference := true, refClass := c, hasDefault := false, default := .vNone }

/-- The `City` document class of `test_1.py`: fixed `name`, mutable
`population`, immutable `ancient` defaulting to `False`. -/
def CityClass : DocClass :=
  { dbCollection := "cities"
    attributes :=
      [ ("name", plainAttr false)
      , ("population", plainAttr true)
      , ("ancient", defAttr false (.vBool false)) ] }

/-- The `Person` document class of `test_1.py`: fixed `name`, mutable `age`,
mutable reference `city` to `City`, immutable `is_cool` defaulting to `True`. -/
def PersonClass : DocClass :=
  { dbCollection := "people"
    attributes :=
      [ ("name", plainAttr false)
      , ("age", plainAttr true)
      , ("city", refAttr true 0)
      , ("is_cool", defAttr false (.vBool true)) ] }

/-- Class environment of the test module: id 0 is `City`, id 1 is `Person`. -/
def testEnv : Env := fun n => if n = 0 then CityClass else PersonClass

/-- An empty context over an empty, healthy database. -/
def emptyState : OdmState :=
  { heap := [], cache := [], store := { collections := [], failing := false },
    nextUuid := 100, nextAddr := 0 }

/-- A context with an empty cache over a database whose `cities` collection
holds exactly one document named `vId 3`. -/
def romeDoc3 : RawDoc :=
  [("_name_", .vId 3), ("name", .vStr "Rome"),
   ("population", .vInt 1), ("ancient", .vBool false)]

def missOneState : OdmState :=
  { heap := [], cache := [],
    store := { collections := [("cities", [romeDoc3])], failing := false },
    nextUuid := 100, nextAddr := 0 }

/-- A `City` instance cached under identity `vId 5`, and a database whose
`people` collection holds a raw document with the same identity: the state
exercising a wrong-class lookup. -/
def romeObj5 : Obj :=
  { cls := 0, name := .vId 5,
    contents := [("name", .vStr "Rome"), ("population", .vInt 1),
                 ("ancient", .vBool false)],
    pyAttrs := [] }

def bobDoc5 : RawDoc :=
  [("_name_", .vId 5), ("name", .vStr "Bob"), ("age", .vInt 4),
   ("city", .vId 9), ("is_cool", .vBool true)]

def wrongClassState : OdmState :=
  { heap := [(0, romeObj5)],
    cache := [(.vId 5, 0)],
    store := { collections := [("people", [bobDoc5])], failing := false },
    nextUuid := 100, nextAddr := 1 }

def carthageObj5 : Obj :=
  { cls := 0, name := .vId 5,
    contents := [("name", .vStr "Carthage"), ("population", .vInt 2),
                 ("ancient", .vBool false)],
    pyAttrs := [] }

def carthageDoc5 : RawDoc :=
  [("_name_", .vId 5), ("name", .vStr "Carthage"),
   ("population", .vInt 2), ("ancient", .vBool false)]

/-- The state after `new` is called on `wrongClassState` with the explicit
identity `vId 5` that is already cached: two live instances share it. -/
def dupAfterState : OdmState :=
  { heap := [(0, romeObj5), (1, carthageObj5)],
    cache := [(.vId 5, 1)],
    store :=
      { collections := [("people", [bobDoc5]), ("cities", [carthageDoc5])]
        failing := false },
    nextUuid := 101, nextAddr := 2 }

/-- State shorthand: replace the object held at one heap address. -/
def setHeap (st : OdmState) (addr : Nat) (o : Obj) : OdmState :=
  { st with heap := setKey st.heap addr o }

/-- Instance shorthand: update one plain (non-schema) attribute. -/
def withPy (o : Obj) (name : String) (v : Value) : Obj :=
  { o with pyAttrs := setKey o.pyAttrs name v }

def romeDoc5 : RawDoc :=
  [("_name_", .vId 5), ("name", .vStr "Rome"),
   ("population", .vInt 1), ("ancient", .vBool false)]

/-- A context holding the cached Rome instance whose document is stored in
the `cities` collection. -/
def cityStoreState : OdmState :=
  { heap := [(0, romeObj5)], cache := [(.vId 5, 0)],
    store := { collections := [("cities", [romeDoc5])], failing := false },
    nextUuid := 100, nextAddr := 1 }

def romeDoc5After : RawDoc :=
  [("_name_", .vId 5), ("name", .vStr "Rome"),
   ("population", .vInt 5), ("ancient", .vBool false)]

/-- The state after the batch write: the stored document carries the new
population, the heap object still carries the old one. -/
def staleState : OdmState :=
  { heap := [(0, romeObj5)], cache := [(.vId 5, 0)],
    store := { collections := [("cities", [romeDoc5After])], failing := false },
    nextUuid := 100, nextAddr := 1 }

def romeObj100 : Obj :=
  { cls := 0, name := .vId 100,
    contents := [("name", .vStr "Rome"), ("population", .vInt 1),
                 ("ancient", .vBool false)],
    pyAttrs := [] }

def romeDoc100 : RawDoc :=
  [("_name_", .vId 100), ("name", .vStr "Rome"),
   ("population", .vInt 1), ("ancient", .vBool false)]

/-- The context after creating Rome in the empty context. -/
def romeCreatedState : OdmState :=
  { heap := [(0, romeObj100)], cache := [(.vId 100, 0)],
    store := { collections := [("cities", [romeDoc100])], failing := false },
    nextUuid := 101, nextAddr := 1 }

/-- The context after constructing Rome with a spurious `_id` key: the
construction succeeds, nothing raises. -/
def romeNoInsertState : OdmState :=
  { heap := [(0, romeObj100)], cache := [(.vId 100, 0)],
    store := { collections := [], failing := false },
    nextUuid := 101, nextAddr := 1 }

def bobObj : Obj :=
  { cls := 1, name := .vId 100,
    contents := [("name", .vStr "Bob"), ("age", .vInt 30),
                 ("city", .vId 5), ("is_cool", .vBool true)],
    pyAttrs := [] }

/-- The context holding the cached Rome city and the freshly constructed
Bob person whose `city` reference field stores the identity of Rome. -/
def bobCreatedState : OdmState :=
  { heap := [(0, romeObj5), (1, bobObj)],
    cache := [(.vId 5, 0), (.vId 100, 1)],
    store := { collections := [("cities", [romeDoc5])], failing := false },
    nextUuid := 101, nextAddr := 2 }

section AssocLemmas

variable {κ α : Type} [DecidableEq κ]

theorem getKey_setKey_self (l : List (κ × α)) (k : κ) (v : α) :
    getKey (setKey l k v) k = some v := by
  induction l with
  | nil => simp [getKey, setKey]
  | cons h t ih =>
    obtain ⟨k1, v1⟩ := h
    by_cases hk : k1 = k
    · subst hk; simp [getKey, setKey]
    · simp [getKey, setKey, hk, ih]

theorem getKey_setKey_ne (l : List (κ × α)) {k k' : κ} (v : α) (h : k' ≠ k) :
    getKey (setKey l k v) k' = getKey l k' := by
  induction l with
  | nil => simp [getKey, setKey, Ne.symm h]
  | cons hd t ih =>
    obtain ⟨k1, v1⟩ := hd
    by_cases hk : k1 = k
    · subst hk; simp [getKey, setKey, Ne.symm h]
    · simp [getKey, setKey, hk, ih]

theorem getKey_popKey_ne (l : List (κ × α)) {k k' : κ} (h : k' ≠ k) :
    getKey (popKey l k) k' = getKey l k' := by
  induction l with
  | nil => simp [getKey, popKey]
  | cons hd t ih =>
    obtain ⟨k1, v1⟩ := hd
    by_cases hk : k1 = k
    · subst hk; simp [getKey, popKey, Ne.symm h]
    · simp [getKey, popKey, hk, ih]

theorem getKey_popKey_none (l : List (κ × α)) {k k' : κ}
    (h : getKey l k' = none) : getKey (popKey l k) k' = none := by
  induction l with
  | nil => simp [getKey, popKey]
  | cons hd t ih =>
    obtain ⟨k1, v1⟩ := hd
    have hk1 : k1 ≠ k' := by
      intro hh
      subst hh
      simp [getKey] at h
    have ht : getKey t k' = none := by simpa [getKey, hk1] using h
    by_cases hk : k1 = k
    · subst hk; simpa [popKey] using ht
    · simp [popKey, hk, getKey, hk1, ih ht]

theorem getKey_mem {l : List (κ × α)} {k : κ} {v : α}
    (h : getKey l k = some v) : (k, v) ∈ l := by
  induction l with
  | nil => simp [getKey] at h
  | cons hd t ih =>
    obtain ⟨k1, v1⟩ := hd
    by_cases hk : k1 = k
    · subst hk
      simp [getKey] at h
      simp [h]
    · simp [getKey, hk] at h
      exact List.mem_cons_of_mem _ (ih h)

theorem getKey_eq_none_iff {l : List (κ × α)} {k : κ} :
    getKey l k = none ↔ k ∉ l.map Prod.fst := by
  induction l with
  | nil => simp [getKey]
  | cons hd t ih =>
    obtain ⟨k1, v1⟩ := hd
    by_cases hk : k1 = k
    · subst hk; simp [getKey]
    · simp [getKey, hk, ih, Ne.symm hk]

theorem isEmpty_eq_false_of_getKey {l : List (κ × α)} {k : κ} {v : α}
    (h : getKey l k = some v) : l.isEmpty = false := by
  cases l with
  | nil => simp [getKey] at h
  | cons hd t => simp

theorem setKey_of_getKey_none {l : List (κ × α)} {k : κ} (v : α)
    (h : getKey l k = none) : setKey l k v = l ++ [(k, v)] := by
  induction l with
  | nil => simp [setKey]
  | cons hd t ih =>
    obtain ⟨k1, v1⟩ := hd
    by_cases hk : k1 = k
    · subst hk; simp [getKey] at h
    · simp [getKey, hk] at h
      simp [setKey, hk, ih h]

end AssocLemmas

/-- Equality on operation results is decidable, so concrete runs of the
embedded operations can be checked by `decide`. -/
instance {ε α : Type} [DecidableEq ε] [DecidableEq α] : DecidableEq (Except ε α) :=
  fun x y =>
    match x, y with
    | .error a, .error b =>
      if h : a = b then .isTrue (by rw [h])
      else .isFalse (fun hh => by cases hh; exact h rfl)
    | .error _, .ok _ => .isFalse (fun hh => by cases hh)
    | .ok _, .error _ => .isFalse (fun hh => by cases hh)
    | .ok a, .ok b =>
      if h : a = b then .isTrue (by rw [h])
      else .isFalse (fun hh => by cases hh; exact h rfl)

section ProcLemmas

variable {heap : List (Nat × Obj)}

theorem procFields_preserve {attrs : List (String × Attr)}
    {kw c0 c rem : List (String × Value)} {k : String}
    (hk : k ∉ attrs.map Prod.fst)
    (h : procFields heap attrs kw c0 = .ok (c, rem)) :
    getKey c k = getKey c0 k := by
  induction attrs generalizing kw c0 with
  | nil =>
    simp [procFields] at h
    rw [← h.1]
  | cons hd rest ih =>
    obtain ⟨k1, att1⟩ := hd
    simp only [List.map_cons, List.mem_cons, not_or] at hk
    obtain ⟨hk1, hkrest⟩ := hk
    simp only [procFields] at h
    split at h
    · split at h
      · exact absurd h (by simp)
      · calc getKey c k = getKey (setKey c0 k1 _) k := ih hkrest h
          _ = getKey c0 k := getKey_setKey_ne _ _ hk1
    · split at h
      · split at h
        · exact absurd h (by simp)
        · calc getKey c k = getKey (setKey c0 k1 _) k := ih hkrest h
            _ = getKey c0 k := getKey_setKey_ne _ _ hk1
      · exact absurd h (by simp)

theorem procFields_rem {attrs : List (String × Attr)}
    {kw c0 c rem : List (String × Value)} {k : String}
    (hk : k ∉ attrs.map Prod.fst)
    (h : procFields heap attrs kw c0 = .ok (c, rem)) :
    getKey rem k = getKey kw k := by
  induction attrs generalizing kw c0 with
  | nil =>
    simp [procFields] at h
    rw [← h.2]
  | cons hd rest ih =>
    obtain ⟨k1, att1⟩ := hd
    simp only [List.map_cons, List.mem_cons, not_or] at hk
    obtain ⟨hk1, hkrest⟩ := hk
    simp only [procFields] at h
    split at h
    · split at h
      · exact absurd h (by simp)
      · calc getKey rem k = getKey (popKey kw k1) k := ih hkrest h
          _ = getKey kw k := getKey_popKey_ne _ hk1
    · split at h
      · split at h
        · exact absurd h (by simp)
        · exact ih hkrest h
      · exact absurd h (by simp)

end ProcLemmas

section ProcLemmas2

variable {heap : List (Nat × Obj)}

theorem getKey_append_none {κ α : Type} [DecidableEq κ] {l1 : List (κ × α)}
    (l2 : List (κ × α)) {k : κ} (h : getKey l1 k = none) :
    getKey (l1 ++ l2) k = getKey l2 k := by
  induction l1 with
  | nil => simp
  | cons hd t ih =>
    obtain ⟨k1, v1⟩ := hd
    have hk1 : k1 ≠ k := by
      intro hh
      subst hh
      simp [getKey] at h
    simp [getKey, hk1] at h ⊢
    exact ih h

theorem firstMissing_popKey {attrs : List (String × Attr)}
    {kw : List (String × Value)} {k1 : String}
    (h : k1 ∉ attrs.map Prod.fst) :
    firstMissing attrs (popKey kw k1) = firstMissing attrs kw := by
  induction attrs with
  | nil => simp [firstMissing]
  | cons hd rest ih =>
    obtain ⟨k, att⟩ := hd
    simp only [List.map_cons, List.mem_cons, not_or] at h
    obtain ⟨hk, hrest⟩ := h
    simp only [firstMissing, getKey_popKey_ne kw (fun hh => hk hh.symm), ih hrest]

theorem procFields_default {attrs : List (String × Attr)}
    {kw c0 c rem : List (String × Value)} {k : String} {att : Attr}
    (hnd : (attrs.map Prod.fst).Nodup)
    (hmem : (k, att) ∈ attrs)
    (hdef : att.hasDefault = true) (href : att.reference = false)
    (hkw : getKey kw k = none)
    (h : procFields heap attrs kw c0 = .ok (c, rem)) :
    getKey c k = some att.default := by
  induction attrs generalizing kw c0 with
  | nil => simp at hmem
  | cons hd rest ih =>
    obtain ⟨k1, att1⟩ := hd
    simp only [List.map_cons, List.nodup_cons] at hnd
    obtain ⟨hk1rest, hndrest⟩ := hnd
    by_cases hkk : k1 = k
    · subst hkk
      have hatt : att1 = att := by
        rcases List.mem_cons.mp hmem with h1 | h1
        · exact (Prod.mk.injEq _ _ _ _ ▸ h1.symm).2
        · exact absurd (List.mem_map_of_mem Prod.fst h1) hk1rest
      rw [hatt] at h
      simp only [procFields, hkw, hdef, rawOf, href] at h
      calc getKey c k1 = getKey (setKey c0 k1 att.default) k1 :=
            procFields_preserve hk1rest h
        _ = some att.default := getKey_setKey_self c0 k1 att.default
    · have hmem' : (k, att) ∈ rest := by
        rcases List.mem_cons.mp hmem with h1 | h1
        · cases h1; exact absurd rfl hkk
        · exact h1
      simp only [procFields] at h
      split at h
      · split at h
        · exact absurd h (by simp)
        · exact ih hndrest hmem'
            (by rw [getKey_popKey_ne kw (fun hh => hkk hh.symm)]; exact hkw) h
      · split at h
        · split at h
          · exact absurd h (by simp)
          · exact ih hndrest hmem' hkw h
        · exact absurd h (by simp)

end ProcLemmas2

section ProcLemmas3

variable {heap : List (Nat × Obj)}

theorem procFields_ref {attrs : List (String × Attr)}
    {kw c0 c rem : List (String × Value)} {k : String} {att : Attr}
    {b : Nat} {oB : Obj}
    (hnd : (attrs.map Prod.fst).Nodup)
    (hmem : (k, att) ∈ attrs)
    (href : att.reference = true)
    (hkw : getKey kw k = some (.vObj b))
    (hb : getKey heap b = some oB)
    (h : procFields heap attrs kw c0 = .ok (c, rem)) :
    getKey c k = some oB.name := by
  induction attrs generalizing kw c0 with
  | nil => simp at hmem
  | cons hd rest ih =>
    obtain ⟨k1, att1⟩ := hd
    simp only [List.map_cons, List.nodup_cons] at hnd
    obtain ⟨hk1rest, hndrest⟩ := hnd
    by_cases hkk : k1 = k
    · subst hkk
      have hatt : att1 = att := by
        rcases List.mem_cons.mp hmem with h1 | h1
        · exact (Prod.mk.injEq _ _ _ _ ▸ h1.symm).2
        · exact absurd (List.mem_map_of_mem Prod.fst h1) hk1rest
      rw [hatt] at h
      simp only [procFields, hkw, rawOf, href, hb] at h
      calc getKey c k1 = getKey (setKey c0 k1 oB.name) k1 :=
            procFields_preserve hk1rest h
        _ = some oB.name := getKey_setKey_self c0 k1 oB.name
    · have hmem' : (k, att) ∈ rest := by
        rcases List.mem_cons.mp hmem with h1 | h1
        · cases h1; exact absurd rfl hkk
        · exact h1
      simp only [procFields] at h
      split at h
      · split at h
        · exact absurd h (by simp)
        · exact ih hndrest hmem'
            (by rw [getKey_popKey_ne kw (fun hh => hkk hh.symm)]; exact hkw) h
      · split at h
        · split at h
          · exact absurd h (by simp)
          · exact ih hndrest hmem' hkw h
        · exact absurd h (by simp)

theorem procFields_missing {attrs : List (String × Attr)}
    {kw c0 : List (String × Value)} {k : String}
    (hnd : (attrs.map Prod.fst).Nodup)
    (hrefok : ∀ k1 att1, (k1, att1) ∈ attrs → att1.reference = true →
        ∀ v, getKey kw k1 = some v → ∃ raw, rawOf heap att1 v = .ok raw)
    (hrefdef : ∀ ka ∈ attrs, ka.2.reference = true → ka.2.hasDefault = false)
    (hfm : firstMissing attrs kw = some k) :
    procFields heap attrs kw c0 = .error (.valueErrorMissing k) := by
  induction attrs generalizing kw c0 with
  | nil => simp [firstMissing] at hfm
  | cons hd rest ih =>
    obtain ⟨k1, att1⟩ := hd
    simp only [List.map_cons, List.nodup_cons] at hnd
    obtain ⟨hk1rest, hndrest⟩ := hnd
    cases hkw1 : getKey kw k1 with
    | some v =>
      have hex : ∃ raw, rawOf heap att1 v = .ok raw := by
        by_cases h1 : att1.reference = true
        · exact hrefok k1 att1 (List.mem_cons_self _ _) h1 v hkw1
        · exact ⟨v, by simp [rawOf, h1]⟩
      obtain ⟨raw, hraw⟩ := hex
      simp [firstMissing, hkw1] at hfm
      simp only [procFields, hkw1, hraw]
      refine ih hndrest ?_ ?_ ?_
      · intro k2 att2 hmem2 href2 v2 hv2
        refine hrefok k2 att2 (List.mem_cons_of_mem _ hmem2) href2 v2 ?_
        rw [getKey_popKey_ne kw
          (fun hh => hk1rest (by rw [← hh]; exact List.mem_map_of_mem Prod.fst hmem2))] at hv2
        exact hv2
      · exact fun ka hka => hrefdef ka (List.mem_cons_of_mem _ hka)
      · rw [firstMissing_popKey hk1rest]
        exact hfm
    | none =>
      cases hdef1 : att1.hasDefault with
      | false =>
        have hk : k1 = k := by
          simp [firstMissing, hkw1, hdef1] at hfm
          exact hfm
        subst hk
        simp [procFields, hkw1, hdef1]
      | true =>
        have href1 : att1.reference = false := by
          cases hr : att1.reference with
          | false => rfl
          | true =>
            have hcon := hrefdef (k1, att1) (List.mem_cons_self _ _) hr
            simp [hdef1] at hcon
        simp [firstMissing, hkw1, hdef1] at hfm
        simp only [procFields, hkw1, hdef1, rawOf, href1]
        refine ih hndrest ?_ ?_ hfm
        · exact fun k2 att2 hmem2 href2 v2 hv2 =>
            hrefok k2 att2 (List.mem_cons_of_mem _ hmem2) href2 v2 hv2
        · exact fun ka hka => hrefdef ka (List.mem_cons_of_mem _ hka)

end ProcLemmas3

section ProcLemmas4

variable {heap : List (Nat × Obj)}

theorem procFields_ok {attrs : List (String × Attr)}
    {kw : List (String × Value)} (c0 : List (String × Value))
    (hnd : (attrs.map Prod.fst).Nodup)
    (hrefok : ∀ k1 att1, (k1, att1) ∈ attrs → att1.reference = true →
        ∀ v, getKey kw k1 = some v → ∃ raw, rawOf heap att1 v = .ok raw)
    (hrefdef : ∀ ka ∈ attrs, ka.2.reference = true → ka.2.hasDefault = false)
    (hfm : firstMissing attrs kw = none) :
    ∃ c rem, procFields heap attrs kw c0 = .ok (c, rem) := by
  induction attrs generalizing kw c0 with
  | nil => exact ⟨c0, kw, rfl⟩
  | cons hd rest ih =>
    obtain ⟨k1, att1⟩ := hd
    simp only [List.map_cons, List.nodup_cons] at hnd
    obtain ⟨hk1rest, hndrest⟩ := hnd
    cases hkw1 : getKey kw k1 with
    | some v =>
      have hex : ∃ raw, rawOf heap att1 v = .ok raw := by
        by_cases h1 : att1.reference = true
        · exact hrefok k1 att1 (List.mem_cons_self _ _) h1 v hkw1
        · exact ⟨v, by simp [rawOf, h1]⟩
      obtain ⟨raw, hraw⟩ := hex
      simp [firstMissing, hkw1] at hfm
      simp only [procFields, hkw1, hraw]
      refine ih (setKey c0 k1 raw) hndrest ?_ ?_ ?_
      · intro k2 att2 hmem2 href2 v2 hv2
        refine hrefok k2 att2 (List.mem_cons_of_mem _ hmem2) href2 v2 ?_
        rw [getKey_popKey_ne kw
          (fun hh => hk1rest (by rw [← hh]; exact List.mem_map_of_mem Prod.fst hmem2))] at hv2
        exact hv2
      · exact fun ka hka => hrefdef ka (List.mem_cons_of_mem _ hka)
      · rw [firstMissing_popKey hk1rest]
        exact hfm
    | none =>
      cases hdef1 : att1.hasDefault with
      | false => simp [firstMissing, hkw1, hdef1] at hfm
      | true =>
        have href1 : att1.reference = false := by
          cases hr : att1.reference with
          | false => rfl
          | true =>
            have hcon := hrefdef (k1, att1) (List.mem_cons_self _ _) hr
            simp [hdef1] at hcon
        simp [firstMissing, hkw1, hdef1] at hfm
        simp only [procFields, hkw1, hdef1, rawOf, href1]
        refine ih (setKey c0 k1 att1.default) hndrest ?_ ?_ hfm
        · exact fun k2 att2 hmem2 href2 v2 hv2 =>
            hrefok k2 att2 (List.mem_cons_of_mem _ hmem2) href2 v2 hv2
        · exact fun ka hka => hrefdef ka (List.mem_cons_of_mem _ hka)

theorem procFields_keys {attrs : List (String × Attr)}
    {kw c0 c rem : List (String × Value)}
    (hnd : (attrs.map Prod.fst).Nodup)
    (hc0 : ∀ k ∈ attrs.map Prod.fst, getKey c0 k = none)
    (h : procFields heap attrs kw c0 = .ok (c, rem)) :
    c.map Prod.fst = c0.map Prod.fst ++ attrs.map Prod.fst := by
  induction attrs generalizing kw c0 with
  | nil =>
    simp [procFields] at h
    rw [← h.1]
    simp
  | cons hd rest ih =>
    obtain ⟨k1, att1⟩ := hd
    simp only [List.map_cons, List.nodup_cons] at hnd
    obtain ⟨hk1rest, hndrest⟩ := hnd
    have hc01 : getKey c0 k1 = none := hc0 k1 (by simp)
    have hstep : ∀ raw : Value, ∀ k ∈ rest.map Prod.fst,
        getKey (setKey c0 k1 raw) k = none := by
      intro raw k hk
      have hne : k ≠ k1 := fun hh => hk1rest (hh ▸ hk)
      rw [getKey_setKey_ne _ _ hne]
      exact hc0 k (by simp [hk])
    have hkeys : ∀ raw : Value,
        (setKey c0 k1 raw).map Prod.fst = c0.map Prod.fst ++ [k1] := by
      intro raw
      rw [setKey_of_getKey_none _ hc01]
      simp
    simp only [procFields] at h
    split at h
    · split at h
      · exact absurd h (by simp)
      · rw [ih hndrest (hstep _) h, hkeys]
        simp
    · split at h
      · split at h
        · exact absurd h (by simp)
        · rw [ih hndrest (hstep _) h, hkeys]
          simp
      · exact absurd h (by simp)

end ProcLemmas4

section OpLemmas

variable {heap : List (Nat × Obj)}

theorem refsLive_spec {attrs : List (String × Attr)} {kwargs : List (String × Value)}
    (h : refsLive heap attrs kwargs = true) :
    ∀ k att, (k, att) ∈ attrs → att.reference = true →
      ∀ v, getKey kwargs k = some v → ∃ raw, rawOf heap att v = .ok raw := by
  intro k att hmem href v hv
  have h1 := List.all_eq_true.mp h (k, att) hmem
  simp only [href, Bool.not_true, Bool.false_or, hv] at h1
  cases v with
  | vObj r =>
    have h2 : (getKey heap r).isSome = true := h1
    cases hr : getKey heap r with
    | none => rw [hr] at h2; simp at h2
    | some o1 => exact ⟨o1.name, by simp [rawOf, href, hr]⟩
  | vNone => exact absurd (h1 : false = true) (by simp)
  | vStr s1 => exact absurd (h1 : false = true) (by simp)
  | vInt n1 => exact absurd (h1 : false = true) (by simp)
  | vBool b1 => exact absurd (h1 : false = true) (by simp)
  | vId i1 => exact absurd (h1 : false = true) (by simp)

theorem initDoc_ok_spec {env : Env} {cls : Nat}
    {kwargs : List (String × Value)} {fresh : Nat} {o : Obj}
    (h : initDoc env heap cls kwargs fresh = .ok o) :
    ∃ c rem, procFields heap (env cls).attributes (popKey kwargs "_name_") [] = .ok (c, rem) ∧
      (popKey rem "_id").isEmpty = true ∧
      o = { cls := cls, contents := c, pyAttrs := [],
            name := match getKey kwargs "_name_" with
                    | some v => if v.truthy then v else .vId fresh
                    | none => .vId fresh } := by
  simp only [initDoc] at h
  split at h
  · exact absurd h (by simp)
  · rename_i contents rem heq
    split at h
    · rename_i hemp
      refine ⟨contents, rem, heq, hemp, ?_⟩
      simp only [Except.ok.injEq] at h
      exact h.symm
    · exact absurd h (by simp)

end OpLemmas

section OpLemmas2

theorem newCached_ok_spec {env : Env} {st : OdmState} {cls : Nat}
    {kwargs : List (String × Value)} {addr : Nat} {st1 : OdmState}
    (h : ODM.newCached env st cls kwargs = .ok (addr, st1)) :
    ∃ o, initDoc env st.heap cls kwargs st.nextUuid = .ok o ∧
      addr = st.nextAddr ∧
      st1 = { st with heap := setKey st.heap st.nextAddr o,
                      cache := setKey st.cache o.name st.nextAddr,
                      nextUuid := st.nextUuid + 1, nextAddr := st.nextAddr + 1 } := by
  simp only [ODM.newCached] at h
  split at h
  · exact absurd h (by simp)
  · rename_i o heq
    simp only [Except.ok.injEq, Prod.mk.injEq] at h
    exact ⟨o, heq, h.1.symm, h.2.symm⟩

theorem write_ok_spec {env : Env} {st : OdmState} {addr : Nat} {u : Unit} {st1 : OdmState}
    (h : Document.write env st addr = .ok (u, st1)) :
    ∃ o store1, getKey st.heap addr = some o ∧
      st.store.insertDoc (env o.cls).dbCollection (("_name_", o.name) :: o.contents) = .ok store1 ∧
      st1 = { st with store := store1 } := by
  simp only [Document.write] at h
  split at h
  · exact absurd h (by simp)
  · rename_i o ho
    split at h
    · exact absurd h (by simp)
    · rename_i store1 hs
      simp only [Except.ok.injEq, Prod.mk.injEq] at h
      exact ⟨o, store1, ho, hs, h.2.symm⟩

theorem new_ok_spec {env : Env} {st : OdmState} {cls : Nat}
    {kwargs : List (String × Value)} {addr : Nat} {st1 : OdmState}
    (h : ODM.new env st cls kwargs = .ok (addr, st1)) :
    ∃ stA u, ODM.newCached env st cls kwargs = .ok (addr, stA) ∧
      Document.write env stA addr = .ok (u, st1) := by
  simp only [ODM.new] at h
  split at h
  · exact absurd h (by simp)
  · rename_i addrA stA hnc
    split at h
    · exact absurd h (by simp)
    · rename_i u stB hw
      simp only [Except.ok.injEq, Prod.mk.injEq] at h
      obtain ⟨h1, h2⟩ := h
      subst h1
      subst h2
      exact ⟨stA, u, hnc, hw⟩

theorem findAllGo_cached {env : Env} {cls : Nat} {st : OdmState} {docs : List RawDoc}
    (h : ∀ d ∈ docs, ∃ nm a, getKey d "_name_" = some nm ∧ getKey st.cache nm = some a) :
    ∃ addrs, ODM.findAllGo env cls st docs = .ok (addrs, st) ∧
      List.Forall₂ (fun d a => ∃ nm, getKey d "_name_" = some nm ∧
          getKey st.cache nm = some a) docs addrs := by
  induction docs with
  | nil => exact ⟨[], rfl, List.Forall₂.nil⟩
  | cons d ds ih =>
    obtain ⟨nm, a, hnm, hca⟩ := h d (List.mem_cons_self _ _)
    obtain ⟨addrs, hgo, hf⟩ := ih (fun d1 hd1 => h d1 (List.mem_cons_of_mem _ hd1))
    refine ⟨a :: addrs, ?_, List.Forall₂.cons ⟨nm, hnm, hca⟩ hf⟩
    simp [ODM.findAllGo, hnm, hca, hgo]

theorem findAllGo_cache_stable {env : Env} {cls : Nat} {st st1 : OdmState}
    {docs : List RawDoc} {addrs : List Nat} {nm : Value} {a : Nat}
    (hfresh : ∀ j, st.nextUuid ≤ j → nm ≠ .vId j)
    (hc : getKey st.cache nm = some a)
    (h : ODM.findAllGo env cls st docs = .ok (addrs, st1)) :
    getKey st1.cache nm = some a ∧ st.nextUuid ≤ st1.nextUuid ∧
      List.Forall₂ (fun d addr => getKey d "_name_" = some nm → addr = a) docs addrs := by
  induction docs generalizing st addrs with
  | nil =>
    simp only [ODM.findAllGo, Except.ok.injEq, Prod.mk.injEq] at h
    obtain ⟨h1, h2⟩ := h
    subst h1
    subst h2
    exact ⟨hc, le_refl _, List.Forall₂.nil⟩
  | cons d ds ih =>
    simp only [ODM.findAllGo] at h
    split at h
    · rename_i addr0 heq
      split at h
      · exact absurd h (by simp)
      · rename_i rest stB hgo
        simp only [Except.ok.injEq, Prod.mk.injEq] at h
        obtain ⟨ha1, ha2⟩ := h
        subst ha1
        subst ha2
        obtain ⟨ihc, ihle, ihf⟩ := ih hfresh hc hgo
        refine ⟨ihc, ihle, List.Forall₂.cons ?_ ihf⟩
        intro hdn
        rw [hdn] at heq
        simp only [Option.some_bind] at heq
        rw [hc] at heq
        exact (Option.some.inj heq).symm
    · rename_i heq
      split at h
      · exact absurd h (by simp)
      · rename_i addr0 stA hnc
        split at h
        · exact absurd h (by simp)
        · rename_i rest stB hgo
          simp only [Except.ok.injEq, Prod.mk.injEq] at h
          obtain ⟨ha1, ha2⟩ := h
          subst ha1
          subst ha2
          obtain ⟨o, hinit, haddr, hstA⟩ := newCached_ok_spec hnc
          obtain ⟨c, rem, hpf, hemp, ho⟩ := initDoc_ok_spec hinit
          have hcacheA : stA.cache = setKey st.cache o.name st.nextAddr := by rw [hstA]
          have huuidA : stA.nextUuid = st.nextUuid + 1 := by rw [hstA]
          have hne : o.name ≠ nm := by
            rw [ho]
            cases hd : getKey d "_name_" with
            | none =>
              simpa using Ne.symm (hfresh st.nextUuid (le_refl _))
            | some v =>
              rw [hd] at heq
              simp only [Option.some_bind] at heq
              have hvnm : v ≠ nm := by
                intro hh
                rw [hh, hc] at heq
                exact absurd heq (by simp)
              by_cases ht : v.truthy = true
              · simpa [ht] using hvnm
              · simp only [Bool.not_eq_true] at ht
                simpa [ht] using Ne.symm (hfresh st.nextUuid (le_refl _))
          have hcA : getKey stA.cache nm = some a := by
            rw [hcacheA, getKey_setKey_ne st.cache st.nextAddr (Ne.symm hne)]
            exact hc
          have hfreshA : ∀ j, stA.nextUuid ≤ j → nm ≠ .vId j := by
            intro j hj
            rw [huuidA] at hj
            exact hfresh j (by omega)
          obtain ⟨ihc, ihle, ihf⟩ := ih hfreshA hcA hgo
          rw [huuidA] at ihle
          refine ⟨ihc, by omega, List.Forall₂.cons ?_ ihf⟩
          intro hdn
          rw [hdn] at heq
          simp only [Option.some_bind] at heq
          rw [hc] at heq
          exact absurd heq (by simp)

end OpLemmas2

section Claims310



/-- C3: on a cache miss `find_one` raises `NameError` from the unbound
`db_conn` before the store is consulted, whatever the store holds. -/
theorem find_one_cache_miss_name_error (env : Env) (st : OdmState) (cls : Nat)
    (nm : Value) (h : getKey st.cache nm = none) :
    ODM.find_one env st cls nm = .error (.nameError, st) := by
  simp [ODM.find_one, h]

theorem find_one_cache_miss_name_error_witness :
    getKey missOneState.cache (Value.vId 3) = none ∧
    ODM.find_one testEnv missOneState 0 (Value.vId 3) = .error (.nameError, missOneState) :=
  ⟨by decide, find_one_cache_miss_name_error testEnv missOneState 0 (Value.vId 3) (by decide)⟩

/-- C10: the cache is keyed by identity alone with no type check. -/
theorem cache_untyped_lookup :
    (∀ (env : Env) (st : OdmState) (cls : Nat) (nm : Value) (a : Nat),
        getKey st.cache nm = some a → ODM.find_one env st cls nm = .ok (a, st))
    ∧ (∀ (env : Env) (st : OdmState) (cls : Nat) (crit : RawDoc),
        (∀ d ∈ st.store.findCrit (env cls).dbCollection crit,
            ∃ nm a, getKey d "_name_" = some nm ∧ getKey st.cache nm = some a) →
        ∃ addrs, ODM.find_all env st cls crit = .ok (addrs, st) ∧
          List.Forall₂ (fun d a => ∃ nm, getKey d "_name_" = some nm ∧
              getKey st.cache nm = some a)
            (st.store.findCrit (env cls).dbCollection crit) addrs) := by
  constructor
  · intro env st cls nm a h
    simp [ODM.find_one, h]
  · intro env st cls crit h
    exact findAllGo_cached h




theorem cache_untyped_lookup_witness :
    ODM.find_one testEnv wrongClassState 1 (Value.vId 5) = .ok (0, wrongClassState) ∧
    ∃ addrs, ODM.find_all testEnv wrongClassState 1 [] = .ok (addrs, wrongClassState) ∧
      List.Forall₂ (fun d a => ∃ nm, getKey d "_name_" = some nm ∧
          getKey wrongClassState.cache nm = some a)
        (wrongClassState.store.findCrit (testEnv 1).dbCollection []) addrs :=
  ⟨cache_untyped_lookup.1 testEnv wrongClassState 1 (Value.vId 5) 0 (by decide),
   cache_untyped_lookup.2 testEnv wrongClassState 1 []
     (by
       intro d hd
       simp [Store.findCrit, Store.coll, wrongClassState, testEnv, PersonClass,
         getKey, docMatches] at hd
       subst hd
       exact ⟨.vId 5, 0, by decide, by decide⟩)⟩

end Claims310


section Claim1




/-- C1 counterexample: with identity `vId 5` cached as instance 0, a
`find_one` resolving `vId 5` returns instance 0 while a `new` with the same
explicit identity returns the distinct instance 1, registering it over the
cache entry — two live instances with the same identity in one context. -/
theorem create_ignores_cache_cex :
    ODM.find_one testEnv wrongClassState 0 (.vId 5) = .ok (0, wrongClassState) ∧
    ODM.new testEnv wrongClassState 0
        [("name", .vStr "Carthage"), ("population", .vInt 2), ("_name_", .vId 5)]
      = .ok (1, dupAfterState) ∧
    (0 : Nat) ≠ 1 ∧
    getKey dupAfterState.heap 0 = some romeObj5 ∧
    getKey dupAfterState.heap 1 = some carthageObj5 ∧
    romeObj5.name = carthageObj5.name :=
  ⟨by decide, by decide, by decide, by decide, by decide, by decide⟩

/-- C1 amended: `find_one` checks the cache before any store contact — a
successful lookup returns the instance the cache maps the identity to and
leaves the state unchanged, so two successful `find_one` lookups of one
identity agree; `find_all` checks the cache for every raw match — after a
`find_one` resolved identity `nm` (and `nm` cannot collide with a freshly
generated UUID), every `find_all` match carrying `nm` yields that same
instance and `nm` stays cached to it, so `find_one`/`find_all` lookup pairs
resolving to `nm` agree; `new`, however, registers its fresh instance
unconditionally, overwriting any cache entry for that identity. -/
theorem lookup_identity_consistency :
    (∀ (env : Env) (st st1 : OdmState) (cls : Nat) (nm : Value) (a : Nat),
        ODM.find_one env st cls nm = .ok (a, st1) →
        st1 = st ∧ getKey st.cache nm = some a)
    ∧ (∀ (env : Env) (st st1 st2 : OdmState) (cls cls2 : Nat) (crit : RawDoc)
        (nm : Value) (a : Nat) (addrs : List Nat),
        ODM.find_one env st cls nm = .ok (a, st1) →
        (∀ j, st1.nextUuid ≤ j → nm ≠ .vId j) →
        ODM.find_all env st1 cls2 crit = .ok (addrs, st2) →
        getKey st2.cache nm = some a ∧
          List.Forall₂ (fun d addr => getKey d "_name_" = some nm → addr = a)
            (st1.store.findCrit (env cls2).dbCollection crit) addrs)
    ∧ (∀ (env : Env) (st st1 : OdmState) (cls : Nat)
        (kwargs : List (String × Value)) (nm : Value) (a : Nat),
        getKey kwargs "_name_" = some nm → nm.truthy = true →
        ODM.new env st cls kwargs = .ok (a, st1) →
        getKey st1.cache nm = some a) := by
  have hone : ∀ (env : Env) (st st1 : OdmState) (cls : Nat) (nm : Value) (a : Nat),
      ODM.find_one env st cls nm = .ok (a, st1) →
      st1 = st ∧ getKey st.cache nm = some a := by
    intro env st st1 cls nm a h
    simp only [ODM.find_one] at h
    cases hc : getKey st.cache nm with
    | none => rw [hc] at h; exact absurd h (by simp)
    | some addr =>
      rw [hc] at h
      simp only [Except.ok.injEq, Prod.mk.injEq] at h
      obtain ⟨h1, h2⟩ := h
      subst h1
      subst h2
      exact ⟨rfl, rfl⟩
  refine ⟨hone, ?_, ?_⟩
  · intro env st st1 st2 cls cls2 crit nm a addrs h1 hfresh h2
    obtain ⟨hst, hc⟩ := hone env st st1 cls nm a h1
    have hc1 : getKey st1.cache nm = some a := by rw [hst]; exact hc
    simp only [ODM.find_all] at h2
    obtain ⟨hc2, hle, hf⟩ := findAllGo_cache_stable hfresh hc1 h2
    exact ⟨hc2, hf⟩
  · intro env st st1 cls kwargs nm a hkw htr h
    obtain ⟨stA, u, hnc, hw⟩ := new_ok_spec h
    obtain ⟨o, hinit, haddr, hstA⟩ := newCached_ok_spec hnc
    obtain ⟨c, rem, hpf, hemp, ho⟩ := initDoc_ok_spec hinit
    obtain ⟨o2, store1, ho2, hins, hst1⟩ := write_ok_spec hw
    have hname : o.name = nm := by
      rw [ho]
      simp [hkw, htr]
    subst haddr
    subst hst1
    subst hstA
    rw [hname] at *
    exact getKey_setKey_self st.cache nm st.nextAddr

theorem lookup_identity_consistency_witness :
    (wrongClassState = wrongClassState ∧
      getKey wrongClassState.cache (.vId 5) = some 0) ∧
    (getKey wrongClassState.cache (.vId 5) = some 0 ∧
      List.Forall₂ (fun d addr => getKey d "_name_" = some (.vId 5) → addr = 0)
        (wrongClassState.store.findCrit (testEnv 1).dbCollection []) [0]) ∧
    getKey dupAfterState.cache (.vId 5) = some 1 :=
  ⟨lookup_identity_consistency.1 testEnv wrongClassState wrongClassState 0
     (.vId 5) 0 (by decide),
   lookup_identity_consistency.2.1 testEnv wrongClassState wrongClassState
     wrongClassState 0 1 [] (.vId 5) 0 [0] (by decide)
     (by
       intro j hj heq
       cases heq
       exact absurd hj (by decide))
     (by decide),
   lookup_identity_consistency.2.2 testEnv wrongClassState dupAfterState 0
     [("name", .vStr "Carthage"), ("population", .vInt 2), ("_name_", .vId 5)]
     (.vId 5) 1 (by decide) (by decide) (by decide)⟩

end Claim1

section Claim2

/-- C2: a single-field write to a mutable schema field commits the store
update keyed by the record identity first; on success the in-memory raw
value is updated and a read returns the new value, on store failure the
error propagates with the state untouched. -/
theorem single_write_store_first (env : Env) (st : OdmState) (addr : Nat)
    (name : String) (v : Value) (o : Obj) (att : Attr) (raw : Value)
    (ho : getKey st.heap addr = some o)
    (ha : getKey (env o.cls).attributes name = some att)
    (hm : att.mutable = true)
    (hr : rawOf st.heap att v = .ok raw)
    (hp : getKey o.pyAttrs name = none) :
    (st.store.failing = false →
      ∃ st1, Document.setattr env st addr name v = .ok ((), st1) ∧
        Store.update st.store (env o.cls).dbCollection o.name [(name, raw)]
          = .ok st1.store ∧
        getKey st1.heap addr = some { o with contents := setKey o.contents name raw } ∧
        st1.cache = st.cache ∧
        (att.reference = false →
          Document.getattr env st1 addr name = .ok (v, st1)))
    ∧ (st.store.failing = true →
        Document.setattr env st addr name v = .error (.storeError, st)) := by
  constructor
  · intro hfail
    refine ⟨{ st with
        store :=
          { st.store with
            collections := setKey st.store.collections (env o.cls).dbCollection
              (updateFirst o.name [(name, raw)] (st.store.coll (env o.cls).dbCollection)) }
        heap := setKey st.heap addr { o with contents := setKey o.contents name raw } },
      ?_, ?_, ?_, rfl, ?_⟩
    · simp [Document.setattr, ho, ha, hm, hr, Store.update, hfail]
    · simp [Store.update, hfail]
    · exact getKey_setKey_self st.heap addr _
    · intro hnref
      have hv : raw = v := by
        simp [rawOf, hnref] at hr
        exact hr.symm
      subst hv
      simp [Document.getattr, getKey_setKey_self st.heap addr, hp, ha, hnref,
        getKey_setKey_self o.contents name]
  · intro hfail
    simp [Document.setattr, ho, ha, hm, hr, Store.update, hfail]

end Claim2

theorem single_write_store_first_witness :
    ∃ st1, Document.setattr testEnv wrongClassState 0 "population" (.vInt 5) = .ok ((), st1) ∧
      Store.update wrongClassState.store (testEnv romeObj5.cls).dbCollection romeObj5.name
        [("population", .vInt 5)] = .ok st1.store ∧
      getKey st1.heap 0 = some
        { romeObj5 with contents := setKey romeObj5.contents "population" (.vInt 5) } ∧
      st1.cache = wrongClassState.cache ∧
      ((plainAttr true).reference = false →
        Document.getattr testEnv st1 0 "population" = .ok (.vInt 5, st1)) :=
  (single_write_store_first testEnv wrongClassState 0 "population" (.vInt 5) romeObj5
    (plainAttr true) (.vInt 5) (by decide) (by decide) (by decide) (by decide)
    (by decide)).1 (by decide)

section Claim9



/-- C9 counterexample: a single-field write to the name `mayor`, absent from
the `City` schema, does not fail: it silently sets a plain instance
attribute, leaving the store and the stored fields untouched. -/
theorem unknown_write_no_error_cex :
    Document.setattr testEnv wrongClassState 0 "mayor" (.vStr "Anna")
      = .ok ((), setHeap wrongClassState 0 (withPy romeObj5 "mayor" (.vStr "Anna"))) := by
  decide

/-- C9 amended: an unknown-name write falls through to the plain attribute
fallback (no store contact, stored fields unchanged); a write to a
non-mutable schema field raises `ReadOnlyError` with the state untouched. -/
theorem single_write_validation (env : Env) (st : OdmState) (addr : Nat)
    (name : String) (v : Value) (o : Obj)
    (ho : getKey st.heap addr = some o) :
    (getKey (env o.cls).attributes name = none →
      Document.setattr env st addr name v = .ok ((), setHeap st addr (withPy o name v)))
    ∧ (∀ att, getKey (env o.cls).attributes name = some att → att.mutable = false →
        Document.setattr env st addr name v = .error (.readOnlyError name, st)) := by
  constructor
  · intro hn
    simp [Document.setattr, ho, hn, setHeap, withPy]
  · intro att ha hm
    simp [Document.setattr, ho, ha, hm]

theorem single_write_validation_witness :
    (Document.setattr testEnv wrongClassState 0 "nickname" (.vInt 1)
      = .ok ((), setHeap wrongClassState 0 (withPy romeObj5 "nickname" (.vInt 1)))) ∧
    Document.setattr testEnv wrongClassState 0 "name" (.vStr "X")
      = .error (.readOnlyError "name", wrongClassState) :=
  ⟨(single_write_validation testEnv wrongClassState 0 "nickname" (.vInt 1) romeObj5
      (by decide)).1 (by decide),
   (single_write_validation testEnv wrongClassState 0 "name" (.vStr "X") romeObj5
      (by decide)).2 (plainAttr false) (by decide) (by decide)⟩

end Claim9

section Claim4





/-- C4: `set_multiple` validates and issues the atomic multi-field update,
but never writes the new raw values back into `contents`: after a
successful batch write of `population := 5` the store holds 5 while a read
of `population` still returns 1. -/
theorem set_multiple_stale_read :
    Document.set_multiple testEnv cityStoreState 0 [("population", .vInt 5)]
      = .ok ((), staleState) ∧
    staleState.heap = cityStoreState.heap ∧
    staleState.store.coll "cities" = [romeDoc5After] ∧
    getKey romeDoc5After "population" = some (.vInt 5) ∧
    Document.getattr testEnv staleState 0 "population" = .ok (.vInt 1, staleState) :=
  ⟨by decide, by decide, by decide, by decide, by decide⟩

end Claim4

section Claim5

/-- C5: a successful `new` builds the instance locally, registers it in the
cache under its identity, and issues exactly one insert whose payload is the
`_name_` identity plus every schema field raw value, defaults filled for the
omitted fields. -/
theorem create_payload_complete (env : Env) (st : OdmState) (cls : Nat)
    (kwargs : List (String × Value)) (addr : Nat) (st1 : OdmState)
    (hwf : WFClass (env cls))
    (h : ODM.new env st cls kwargs = .ok (addr, st1)) :
    ∃ o, getKey st1.heap addr = some o ∧
      getKey st1.cache o.name = some addr ∧
      st1.store.collections = setKey st.store.collections (env cls).dbCollection
        (st.store.coll (env cls).dbCollection ++ [("_name_", o.name) :: o.contents]) ∧
      o.contents.map Prod.fst = (env cls).attributes.map Prod.fst ∧
      (∀ k att, (k, att) ∈ (env cls).attributes → att.hasDefault = true →
        att.reference = false → getKey kwargs k = none →
        getKey o.contents k = some att.default) := by
  obtain ⟨stA, u, hnc, hw⟩ := new_ok_spec h
  obtain ⟨o, hinit, haddr, hstA⟩ := newCached_ok_spec hnc
  obtain ⟨c, rem, hpf, hemp, ho⟩ := initDoc_ok_spec hinit
  obtain ⟨o2, store1, ho2, hins, hst1⟩ := write_ok_spec hw
  subst haddr
  have hheapA : stA.heap = setKey st.heap st.nextAddr o := by rw [hstA]
  have hcacheA : stA.cache = setKey st.cache o.name st.nextAddr := by rw [hstA]
  have hstoreA : stA.store = st.store := by rw [hstA]
  have hst1heap : st1.heap = stA.heap := by rw [hst1]
  have hst1cache : st1.cache = stA.cache := by rw [hst1]
  have hst1store : st1.store = store1 := by rw [hst1]
  rw [hheapA, getKey_setKey_self] at ho2
  have ho2o : o = o2 := Option.some.inj ho2
  subst ho2o
  have hocls : o.cls = cls := by rw [ho]
  rw [hstoreA, hocls] at hins
  have hfail : st.store.failing = false := by
    cases hf : st.store.failing with
    | false => rfl
    | true =>
      rw [Store.insertDoc, if_pos hf] at hins
      exact absurd hins (by simp)
  rw [Store.insertDoc, if_neg (by simp [hfail])] at hins
  replace hins := Except.ok.inj hins
  refine ⟨o, ?_, ?_, ?_, ?_, ?_⟩
  · rw [hst1heap, hheapA]
    exact getKey_setKey_self st.heap st.nextAddr o
  · rw [hst1cache, hcacheA]
    exact getKey_setKey_self st.cache o.name st.nextAddr
  · rw [hst1store, ← hins]
  · have hkeys := procFields_keys hwf.nodup
      (fun k _ => (rfl : getKey ([] : List (String × Value)) k = none)) hpf
    rw [ho]
    simpa using hkeys
  · intro k att hmem hdef hnref hkw
    rw [ho]
    exact procFields_default hwf.nodup hmem hdef hnref
      (getKey_popKey_none kwargs hkw) hpf

end Claim5

section Claim5W




theorem create_payload_complete_witness :
    ∃ o, getKey romeCreatedState.heap 0 = some o ∧
      getKey romeCreatedState.cache o.name = some 0 ∧
      romeCreatedState.store.collections = setKey emptyState.store.collections
        (testEnv 0).dbCollection
        (emptyState.store.coll (testEnv 0).dbCollection ++ [("_name_", o.name) :: o.contents]) ∧
      o.contents.map Prod.fst = (testEnv 0).attributes.map Prod.fst ∧
      (∀ k att, (k, att) ∈ (testEnv 0).attributes → att.hasDefault = true →
        att.reference = false →
        getKey [("name", Value.vStr "Rome"), ("population", Value.vInt 1)] k = none →
        getKey o.contents k = some att.default) :=
  create_payload_complete testEnv emptyState 0
    [("name", .vStr "Rome"), ("population", .vInt 1)] 0 romeCreatedState
    ⟨by decide, by decide, by decide⟩ (by decide)

end Claim5W

section Claim6

/-- C6: a construction call that omits a no-default schema field fails with
the `ValueError` naming the first such field, and the context state carried
by the raise is the unchanged input state: nothing was registered in the
cache. -/
theorem missing_field_rejected (env : Env) (st : OdmState) (cls : Nat)
    (kwargs : List (String × Value)) (k : String)
    (hwf : WFClass (env cls))
    (hlive : refsLive st.heap (env cls).attributes kwargs = true)
    (hfm : firstMissing (env cls).attributes kwargs = some k) :
    ODM.newCached env st cls kwargs = .error (.valueErrorMissing k, st) := by
  have hnn : "_name_" ∉ (env cls).attributes.map Prod.fst := by
    intro hmem
    have hb := hwf.noReserved _ hmem
    simp [reservedName] at hb
  have hrefok : ∀ k1 att1, (k1, att1) ∈ (env cls).attributes → att1.reference = true →
      ∀ v, getKey (popKey kwargs "_name_") k1 = some v →
        ∃ raw, rawOf st.heap att1 v = .ok raw := by
    intro k1 att1 hmem href v hv
    rw [getKey_popKey_ne kwargs
      (fun hh => hnn (by rw [← hh]; exact List.mem_map_of_mem Prod.fst hmem))] at hv
    exact refsLive_spec hlive k1 att1 hmem href v hv
  have hpf : procFields st.heap (env cls).attributes (popKey kwargs "_name_") []
      = .error (.valueErrorMissing k) := by
    refine procFields_missing hwf.nodup hrefok ?_ ?_
    · exact fun ka hka => hwf.refNoDefault ka hka
    · rw [firstMissing_popKey hnn]
      exact hfm
  simp [ODM.newCached, initDoc, hpf]

theorem missing_field_rejected_witness :
    ODM.newCached testEnv emptyState 0 [("name", .vStr "Rome")]
      = .error (.valueErrorMissing "population", emptyState) :=
  missing_field_rejected testEnv emptyState 0 [("name", .vStr "Rome")] "population"
    ⟨by decide, by decide, by decide⟩ (by decide) (by decide)

end Claim6

section Claim7


/-- C7 counterexample: `_id` is neither a schema field of `City` nor the
identity-override key `_name_`, yet construction with a leftover `_id` key
succeeds instead of raising `TooManyArgumentsError`: `__init__` silently
pops `_id` before the leftover check. -/
theorem extra_id_key_accepted_cex :
    ODM.newCached testEnv emptyState 0
        [("name", .vStr "Rome"), ("population", .vInt 1), ("_id", .vInt 7)]
      = .ok (0, romeNoInsertState) ∧
    ("_id" ∉ (testEnv 0).attributes.map Prod.fst) ∧ "_id" ≠ "_name_" :=
  ⟨by decide, by decide, by decide⟩

/-- C7 amended: once every schema field resolves, a leftover key that is
neither a schema field, nor `_name_`, nor the silently discarded store key
`_id`, makes construction fail with `TooManyArgumentsError`. -/
theorem leftover_key_rejected (env : Env) (st : OdmState) (cls : Nat)
    (kwargs : List (String × Value)) (k : String) (v : Value)
    (hwf : WFClass (env cls))
    (hlive : refsLive st.heap (env cls).attributes kwargs = true)
    (hfm : firstMissing (env cls).attributes kwargs = none)
    (hk : getKey kwargs k = some v)
    (hks : k ∉ (env cls).attributes.map Prod.fst)
    (hkn : k ≠ "_name_") (hki : k ≠ "_id") :
    ODM.newCached env st cls kwargs = .error (.valueErrorTooMany, st) := by
  have hnn : "_name_" ∉ (env cls).attributes.map Prod.fst := by
    intro hmem
    have hb := hwf.noReserved _ hmem
    simp [reservedName] at hb
  have hrefok : ∀ k1 att1, (k1, att1) ∈ (env cls).attributes → att1.reference = true →
      ∀ v1, getKey (popKey kwargs "_name_") k1 = some v1 →
        ∃ raw, rawOf st.heap att1 v1 = .ok raw := by
    intro k1 att1 hmem href v1 hv1
    rw [getKey_popKey_ne kwargs
      (fun hh => hnn (by rw [← hh]; exact List.mem_map_of_mem Prod.fst hmem))] at hv1
    exact refsLive_spec hlive k1 att1 hmem href v1 hv1
  obtain ⟨c, rem, hpf⟩ := procFields_ok [] hwf.nodup hrefok
    (fun ka hka => hwf.refNoDefault ka hka)
    (by rw [firstMissing_popKey hnn]; exact hfm)
  have hrem : getKey rem k = some v := by
    rw [procFields_rem hks hpf, getKey_popKey_ne kwargs hkn]
    exact hk
  have hid : getKey (popKey rem "_id") k = some v := by
    rw [getKey_popKey_ne rem hki]
    exact hrem
  have hemp : (popKey rem "_id").isEmpty = false := isEmpty_eq_false_of_getKey hid
  simp [ODM.newCached, initDoc, hpf, hemp]

theorem leftover_key_rejected_witness :
    ODM.newCached testEnv emptyState 0
        [("name", .vStr "Rome"), ("population", .vInt 1), ("mood", .vStr "sunny")]
      = .error (.valueErrorTooMany, emptyState) :=
  leftover_key_rejected testEnv emptyState 0
    [("name", .vStr "Rome"), ("population", .vInt 1), ("mood", .vStr "sunny")]
    "mood" (.vStr "sunny") ⟨by decide, by decide, by decide⟩
    (by decide) (by decide) (by decide) (by decide) (by decide) (by decide)

end Claim7

section Claim8




/-- C8: constructing an `A` instance supplying a live instance `B` for a
reference field stores the identity of `B` — not the object — as the raw
value; reading the field afterwards, in the same context with `B` still
cached, resolves through `find_one` to the very same object reference. -/
theorem reference_round_trip (env : Env) (st : OdmState) (clsA : Nat)
    (kwargs : List (String × Value)) (f : String) (attF : Attr)
    (b : Nat) (oB : Obj) (addrA : Nat) (st1 : OdmState)
    (hwf : WFClass (env clsA))
    (hf : getKey (env clsA).attributes f = some attF)
    (href : attF.reference = true)
    (hv : getKey kwargs f = some (.vObj b))
    (hB : getKey st.heap b = some oB)
    (hnew : ODM.newCached env st clsA kwargs = .ok (addrA, st1))
    (hcache : getKey st1.cache oB.name = some b) :
    ∃ oA, getKey st1.heap addrA = some oA ∧
      getKey oA.contents f = some oB.name ∧
      Document.getattr env st1 addrA f = .ok (.vObj b, st1) := by
  obtain ⟨o, hinit, haddr, hstA⟩ := newCached_ok_spec hnew
  obtain ⟨c, rem, hpf, hemp, ho⟩ := initDoc_ok_spec hinit
  subst haddr
  have hfmem : f ∈ (env clsA).attributes.map Prod.fst :=
    List.mem_map_of_mem Prod.fst (getKey_mem hf)
  have hfn : f ≠ "_name_" := by
    intro hh
    have hb := hwf.noReserved f hfmem
    rw [hh] at hb
    simp [reservedName] at hb
  have hc : getKey c f = some oB.name := by
    refine procFields_ref hwf.nodup (getKey_mem hf) href ?_ hB hpf
    rw [getKey_popKey_ne kwargs hfn]
    exact hv
  have hheap1 : st1.heap = setKey st.heap st.nextAddr o := by rw [hstA]
  have hoA : getKey st1.heap st.nextAddr = some o := by
    rw [hheap1]
    exact getKey_setKey_self st.heap st.nextAddr o
  have hcont : getKey o.contents f = some oB.name := by
    rw [ho]
    exact hc
  refine ⟨o, hoA, hcont, ?_⟩
  have hpy : getKey o.pyAttrs f = none := by rw [ho]; rfl
  have hcls : o.cls = clsA := by rw [ho]
  simp only [Document.getattr, hoA, hpy, hcls, hf, hcont, href, if_true,
    ODM.find_one, hcache]

theorem reference_round_trip_witness :
    ∃ oA, getKey bobCreatedState.heap 1 = some oA ∧
      getKey oA.contents "city" = some romeObj5.name ∧
      Document.getattr testEnv bobCreatedState 1 "city" = .ok (.vObj 0, bobCreatedState) :=
  reference_round_trip testEnv cityStoreState 1
    [("name", .vStr "Bob"), ("age", .vInt 30), ("city", .vObj 0)]
    "city" (refAttr true 0) 0 romeObj5 1 bobCreatedState
    ⟨by decide, by decide, by decide⟩
    (by decide) (by decide) (by decide) (by decide) (by decide) (by decide)

end Claim8

end Uodm
